import Mathlib

/-!
Verification of the `urlquery` decode engine: a shallow embedding of the
parser (`parser.go`), the value decoders (`valuedecoder.go`) and the error
taxonomy (`error.go`), together with theorems settling the specification
claims.

Modelling conventions:
* Go strings are byte strings; every input exercised here is ASCII, so
  strings are modelled as Lean `String` (a packed `List Char`) and all
  operations are defined over `String.data` so that they reduce in the
  kernel.
* The container `map[string]string` is modelled as an association list with
  replace-on-insert semantics.  Go map iteration order is unspecified; the
  model iterates in insertion order (a fixed admissible order).
* General recursion of the type-directed traversal is modelled with a fuel
  parameter; every run in the repository's tests terminates, and the
  theorems either hold for every fuel or are evaluated at a sufficient one.
-/

namespace Urlquery

/-! ### String helpers (defined over `String.data` for kernel reduction) -/

def sStartsWith (s pre : String) : Bool := pre.data.isPrefixOf s.data

def sDrop (s : String) (n : Nat) : String := ⟨s.data.drop n⟩

def sTake (s : String) (n : Nat) : String := ⟨s.data.take n⟩

def sLen (s : String) : Nat := s.data.length

def sTakeWhile (s : String) (p : Char → Bool) : String := ⟨s.data.takeWhile p⟩

def sDropWhile (s : String) (p : Char → Bool) : String := ⟨s.data.dropWhile p⟩

/-- Split a character list at every occurrence of `c` (Go `bytes.Split`). -/
def splitOnChar (c : Char) : List Char → List (List Char)
  | [] => [[]]
  | x :: xs =>
    let r := splitOnChar c xs
    if x = c then [] :: r
    else
      match r with
      | y :: ys => (x :: y) :: ys
      | [] => [[x]]

/-- Split at the first `'='` only (Go `strings.SplitN(value, "=", 2)`);
the second component is `none` when no `'='` occurs (Go `len(ns) ≤ 1`). -/
def splitFirstEq : List Char → List Char × Option (List Char)
  | [] => ([], none)
  | x :: xs =>
    if x = '=' then ([], some xs)
    else
      let (a, b) := splitFirstEq xs
      (x :: a, b)

def natToStr (n : Nat) : String := toString n

/-- Value of a non-empty all-digit character list, `none` otherwise. -/
def digitsVal? : List Char → Option Nat
  | [] => none
  | cs => cs.foldl (fun acc c =>
      match acc with
      | none => none
      | some n => if c.isDigit then some (n * 10 + (c.toNat - 48)) else none) (some 0)

/-- Go `strconv.Atoi`: optional sign, decimal digits, 64-bit signed range. -/
def atoi? (s : String) : Option Int :=
  match s.data with
  | '+' :: rest => (digitsVal? rest).bind (fun n => if n ≤ 2 ^ 63 - 1 then some (n : Int) else none)
  | '-' :: rest => (digitsVal? rest).bind (fun n => if n ≤ 2 ^ 63 then some (-(n : Int)) else none)
  | cs => (digitsVal? cs).bind (fun n => if n ≤ 2 ^ 63 - 1 then some (n : Int) else none)

/-! ### The container (`map[string]string`) -/

abbrev Container := List (String × String)

/-- Go map assignment: replace the binding if the key exists, else append. -/
def cinsert (c : Container) (k v : String) : Container :=
  if c.any (fun kv => kv.1 = k) then
    c.map (fun kv => if kv.1 = k then (k, v) else kv)
  else c ++ [(k, v)]

/-- Go map read with ok-flag (`parser.get`). -/
def cget (c : Container) (k : String) : Option String :=
  (c.find? (fun kv => kv.1 = k)).map (fun kv => kv.2)

def containsKey (c : Container) (k : String) : Bool :=
  c.any (fun kv => kv.1 = k)

/-! ### Key path helpers -/

/-- Source `keyName`: reconstruct a key name from parts. -/
def keyName (pfx : String) (index : String) : String :=
  if pfx = "" then index else pfx ++ "[" ++ index ++ "]"

/-- Modelled from the spec: `genNextParentNode` (declared outside the decode
files) resolves a child prefix as `parentPrefix[name]`, or the bare `name`
at the root. -/
def genNextParentNode (parentNode key : String) : String :=
  if parentNode = "" then key else parentNode ++ "[" ++ key ++ "]"

/-- Modelled from the spec: `unpackQueryKey` (declared outside the decode
files) strips exactly one bracket segment from the front of a key suffix and
returns the child token together with the remainder. -/
def unpackQueryKey (k : String) : String × String :=
  if sStartsWith k "[" then
    let rest := sDrop k 1
    (sTakeWhile rest (fun c => c ≠ ']'), sDrop (sDropWhile rest (fun c => c ≠ ']')) 1)
  else
    (sTakeWhile k (fun c => c ≠ '['), sDropWhile k (fun c => c ≠ '['))

/-! ### Destination types and values

The fragment of Go's type universe exercised by the decode engine claims:
primitive scalars, pointers, slices, fixed arrays, maps, structs (fields are
`(name, tag, anonymous, type)` in declaration order) and interfaces. -/

inductive GoKind where
  | boolK | intK | i64K | u16K | strK
  | ptrK | sliceK | arrayK | mapK | structK | ifaceK
deriving DecidableEq

inductive Ty where
  | bool
  | int
  | i64
  | u16
  | str
  | ptr (t : Ty)
  | slice (t : Ty)
  | array (n : Nat) (t : Ty)
  | mapT (k v : Ty)
  | structT (fs : List (String × String × Bool × Ty))
  | iface

abbrev SField := String × String × Bool × Ty

def kindOf : Ty → GoKind
  | .bool => .boolK
  | .int => .intK
  | .i64 => .i64K
  | .u16 => .u16K
  | .str => .strK
  | .ptr _ => .ptrK
  | .slice _ => .sliceK
  | .array _ _ => .arrayK
  | .mapT _ _ => .mapK
  | .structT _ => .structK
  | .iface => .ifaceK

inductive Val where
  | vBool (b : Bool)
  | vInt (n : Int)
  | vU16 (n : Nat)
  | vStr (s : String)
  | vPtr (v : Option Val)
  | vSlice (vs : List Val)
  | vArr (vs : List Val)
  | vMap (entries : List (Val × Val))
  | vStruct (vs : List Val)
  | vIface (held : Option (Ty × Val))

mutual

/-- The Go zero value of each type (`reflect.New`, `reflect.MakeSlice`). -/
def zeroVal : Ty → Val
  | .bool => .vBool false
  | .int => .vInt 0
  | .i64 => .vInt 0
  | .u16 => .vU16 0
  | .str => .vStr ""
  | .ptr _ => .vPtr none
  | .slice _ => .vSlice []
  | .array n t => .vArr (List.replicate n (zeroVal t))
  | .mapT _ _ => .vMap []
  | .structT fs => .vStruct (zeroFields fs)
  | .iface => .vIface none

def zeroFields : List SField → List Val
  | [] => []
  | f :: fs => zeroVal f.2.2.2 :: zeroFields fs

end

/-- Equality of decoded map keys (`reflect.SetMapIndex` key identity); map
keys are restricted to primitive kinds by `isAccessMapKeyType`. -/
def valKeyBeq : Val → Val → Bool
  | .vBool a, .vBool b => a = b
  | .vInt a, .vInt b => a = b
  | .vU16 a, .vU16 b => a = b
  | .vStr a, .vStr b => a = b
  | _, _ => false

def setMapIndex (entries : List (Val × Val)) (k v : Val) : List (Val × Val) :=
  if entries.any (fun e => valKeyBeq e.1 k) then
    entries.map (fun e => if valKeyBeq e.1 k then (k, v) else e)
  else entries ++ [(k, v)]

/-! ### Error taxonomy (`error.go`)

`τ` is the payload standing for `reflect.Type`; the decode engine stores the
destination `Ty` itself.  External causes (escaper failures, `strconv`
errors) are represented by dedicated constructors. -/

inductive GErr (τ : Type) where
  | invalidParamKey (key : String) (cause : Option (GErr τ))
  | invalidParamValue (key val : String) (cause : Option (GErr τ))
  | missingRequiredParam (key : String)
  | invalidMapKeyType (key : String) (typ : τ)
  | invalidMapValueType (key : String) (typ : τ)
  | unhandledType (typ : τ)
  | unsupportedBitSize (bits : Nat)
  | invalidUnmarshal
  | translated (cause : GErr τ)
  | numError (input : String)
  | externalErr (msg : String)

abbrev Err := GErr Ty

/-! ### Primitive decoders (`valuedecoder.go` kind table)

Parse failures are wrapped as `translated` around the underlying `strconv`
diagnostic (`ErrTranslated{err}`), exactly as in the source. -/

/-- Go `strconv.ParseBool`. -/
def parseBool? (s : String) : Option Bool :=
  if s = "1" ∨ s = "t" ∨ s = "T" ∨ s = "TRUE" ∨ s = "true" ∨ s = "True" then some true
  else if s = "0" ∨ s = "f" ∨ s = "F" ∨ s = "FALSE" ∨ s = "false" ∨ s = "False" then some false
  else none

/-- Go `strconv.ParseInt(s, 10, bits)`. -/
def parseIntB? (s : String) (bits : Nat) : Option Int :=
  let signed : Option Int :=
    match s.data with
    | '+' :: rest => (digitsVal? rest).map (fun n => (n : Int))
    | '-' :: rest => (digitsVal? rest).map (fun n => -(n : Int))
    | cs => (digitsVal? cs).map (fun n => (n : Int))
  signed.bind (fun v =>
    if -(2 ^ (bits - 1) : Int) ≤ v ∧ v ≤ 2 ^ (bits - 1) - 1 then some v else none)

/-- Go `strconv.ParseUint(s, 10, bits)` (no sign prefix allowed). -/
def parseUintB? (s : String) (bits : Nat) : Option Nat :=
  (digitsVal? s.data).bind (fun n => if n ≤ 2 ^ bits - 1 then some n else none)

def boolDecode {τ : Type} (value : String) : Except (GErr τ) Val :=
  match parseBool? value with
  | none => .error (.translated (.numError value))
  | some b => .ok (.vBool b)

def intDecode {τ : Type} (bits : Nat) (value : String) : Except (GErr τ) Val :=
  match parseIntB? value bits with
  | none => .error (.translated (.numError value))
  | some v => .ok (.vInt v)

def uintDecode {τ : Type} (bits : Nat) (value : String) : Except (GErr τ) Val :=
  match parseUintB? value bits with
  | none => .error (.translated (.numError value))
  | some v => .ok (.vU16 v)

def stringDecode {τ : Type} (value : String) : Except (GErr τ) Val :=
  .ok (.vStr value)

/-- Source `getDecodeFunc`: the fixed table keyed by structural kind.  Go
`int` is native width, modelled as the 64-bit parse (`ParseInt(_, 10, 0)`). -/
def getDecodeFuncDefault (τ : Type) : GoKind → Option (String → Except (GErr τ) Val)
  | .boolK => some boolDecode
  | .intK => some (intDecode 64)
  | .i64K => some (intDecode 64)
  | .u16K => some (uintDecode 16)
  | .strK => some stringDecode
  | _ => none

/-! ### Parser state (`parser` struct)

The query encoder is the injectable escaping strategy: it returns the
unescape result together with an optional error, mirroring Go's
`UnEscape(string) (string, error)`.  The escaping algorithms themselves are
external collaborators of this repository. -/

structure ValueDecoder where
  decodesType : Ty → Bool
  decode : String → Except Err Val

structure Parser where
  container : Container := []
  err : Option Err := none
  queryEncoder : String → String × Option Err
  decodeFuncMap : List (GoKind × Option (String → Except Err Val)) := []
  customDecoders : List ValueDecoder := []

/-- Source `parser.getDecodeFunc`: a registered override (possibly an
explicit `nil`) wins over the default table. -/
def pGetDecodeFunc (p : Parser) (k : GoKind) : Option (String → Except Err Val) :=
  match (p.decodeFuncMap.find? (fun e => e.1 = k)).map (fun e => e.2) with
  | some f => f
  | none => getDecodeFuncDefault Ty k

/-- Source `RegisterDecodeFunc`. -/
def registerDecodeFunc (p : Parser) (k : GoKind) (f : Option (String → Except Err Val)) : Parser :=
  {p with decodeFuncMap := (k, f) :: p.decodeFuncMap.filter (fun e => e.1 ≠ k)}

/-- Source `RegisterValueDecoder` (nil decoders are ignored; the model has
no nil functions, so every registration appends). -/
def registerValueDecoder (p : Parser) (d : ValueDecoder) : Parser :=
  {p with customDecoders := p.customDecoders ++ [d]}

/-! ### Lookup primitives -/

def insKey (acc : List String) (k : String) : List String :=
  if acc.contains k then acc else acc ++ [k]

/-- Source `parser.lookup`: collect the deduplicated child tokens of every
container key under `pfx`.  Go iterates the container map in unspecified
order; the model uses insertion order. -/
def lookup (c : Container) (pfx : String) : List String :=
  c.foldl (fun acc kv =>
    if sStartsWith kv.1 pfx then
      let suf := sDrop kv.1 (sLen pfx)
      if pfx ≠ "" ∧ sLen suf > 0 ∧ ¬ sStartsWith suf "[" then acc
      else insKey acc (unpackQueryKey suf).1
    else acc) []

def insInt (acc : List Int) (i : Int) : List Int :=
  if acc.contains i then acc else acc ++ [i]

/-- Source `parser.lookupForSlice`: convert the child tokens to integers,
failing on the first non-integer token with `ErrInvalidParamKey` whose key
is `fmt.Sprintf("%s[%s]", prefix, token)`. -/
def lookupForSlice (c : Container) (pfx : String) : Except Err (List Int) :=
  (lookup c pfx).foldlM (fun acc tok =>
    match atoi? tok with
    | none => .error (.invalidParamKey (pfx ++ "[" ++ tok ++ "]") (some (.numError tok)))
    | some i => .ok (insInt acc i)) []

/-! ### Struct tags and map element restrictions -/

/-- Modelled from the spec: the tag mini-language (`newTag` is declared
outside the decode files) — comma-separated tokens, first token is the name
override. -/
def tagName (tag : String) : String :=
  ⟨(splitOnChar ',' tag.data).headD []⟩

/-- Modelled from the spec: the remaining comma-separated tokens form the
flag set (`tag.contains`). -/
def tagContains (tag flag : String) : Bool :=
  ((splitOnChar ',' tag.data).drop 1).contains flag.data

/-- Modelled from the spec: `isAccessMapKeyType` (declared outside the
decode files) — map key kinds must lie in the primitive-decodable set. -/
def isAccessMapKeyType (k : GoKind) : Bool :=
  match k with
  | .boolK | .intK | .i64K | .u16K | .strK => true
  | _ => false

/-- Modelled from the spec: `isAccessMapValueType` — map value kinds must
lie in the primitive-decodable set. -/
def isAccessMapValueType (k : GoKind) : Bool :=
  match k with
  | .boolK | .intK | .i64K | .u16K | .strK => true
  | _ => false

/-! ### The decode resolution chain as used by the engine

In this fragment of the type universe no type is convertible from
`time.Time` (`TimeDecoder.DecodesType` is `false` everywhere) and no type
implements the `Decodable` protocol; the full chain including those tiers
is embedded separately below (`Chain`) over a universe where they occur. -/

/-- `TimeDecoder.DecodesType` restricted to this fragment: `time.Time` is a
struct with unexported fields, convertible to no type built here. -/
def builtinTimeClaims : Ty → Bool := fun _ => false

/-- `isDecodable` restricted to this fragment: none of these types carries
an `UnmarshalQueryParam` method. -/
def isDecodableTy : Ty → Bool := fun _ => false

/-- Source `canImmediatelyDecode`: the `interface{}` type is never
immediately decodable, otherwise ask the chain tiers in order. -/
def canImmediatelyDecode (p : Parser) (t : Ty) : Bool :=
  match t with
  | .iface => false
  | _ =>
    p.customDecoders.any (fun d => d.decodesType t)
      || builtinTimeClaims t || isDecodableTy t

/-- Source `parser.decode`: the guard `typ != reflect.TypeOf(anyType)`
compares the destination against the runtime type of a `reflect.Type`
value, which no destination type here ever equals, so the chain is always
consulted; the builtin and protocol tiers claim no type of this fragment. -/
def pdecode (p : Parser) (t : Ty) (value : String) : Except Err Val :=
  match p.customDecoders.find? (fun d => d.decodesType t) with
  | some d => d.decode value
  | none =>
    match pGetDecodeFunc p (kindOf t) with
    | none => .error (.unhandledType t)
    | some f => f value

/-! ### The recursive decode engine (`parser.parse` and helpers)

`RecFn` is the signature of one recursive step; `parse fuel` ties the knot
with a fuel argument.  `canSet` threads `reflect.Value.CanSet` (true for
everything reachable through the non-nil destination pointer, false under
an interface). -/

abbrev RecFn := Parser → Ty → Val → String → Bool → Parser × Val × Bool

/-- Source `p.err == nil` guard before recording an error. -/
def setErrIfNone (p : Parser) (e : Err) : Parser :=
  match p.err with
  | none => {p with err := some e}
  | some _ => p

/-- Source `parseValue`: look up the value at exactly `node`; `found` is
set before decoding, so a decode failure still reports `found = true`.
The source attempts a reflect conversion when the decoded value's concrete
type differs from the destination; the kind table below always returns
destination-shaped values, so that branch is the identity here. -/
def parseValue (p : Parser) (t : Ty) (v : Val) (node : String) (canSet : Bool) :
    Parser × Val × Bool :=
  if ¬ canSet then (p, v, false)
  else
    match cget p.container node with
    | none => (p, v, false)
    | some value =>
      match pdecode p t value with
      | .error e => ({p with err := some (.invalidParamValue node value (some e))}, v, true)
      | .ok w => (p, w, true)

/-- Source `parseForPrt`: a nil settable pointer is allocated only when at
least one key exists under the prefix, and the allocation persists even if
the recursion then reports nothing found. -/
def parseForPrt (rec : RecFn) (p : Parser) (te : Ty) (pv : Option Val) (node : String)
    (canSet : Bool) : Parser × Val × Bool :=
  match pv with
  | none =>
    if canSet then
      if (lookup p.container node).isEmpty then (p, .vPtr none, false)
      else
        let r := rec p te (zeroVal te) node true
        (r.1, .vPtr (some r.2.1), r.2.2)
    else (p, .vPtr none, false)
  | some w =>
    let r := rec p te w node true
    (r.1, .vPtr (some r.2.1), r.2.2)

/-- Loop body of source `parseForMap`: decode each child token as the key
type and the value at `prefix[token]` as the element type, building a fresh
map; the first failure is recorded and aborts the loop with the destination
untouched. -/
def mapLoop (p : Parser) (kt vt : Ty) (v : Val) (node : String) :
    List String → List (Val × Val) → Bool → Parser × Val × Bool
  | [], entries, found => if found then (p, .vMap entries, true) else (p, v, false)
  | k :: ks, entries, found =>
    match pdecode p kt k with
    | .error e => ({p with err := some (.invalidParamKey (keyName node k) (some e))}, v, found)
    | .ok rk =>
      match cget p.container (genNextParentNode node k) with
      | none => mapLoop p kt vt v node ks entries found
      | some value =>
        match pdecode p vt value with
        | .error e =>
          ({p with err := some (.invalidParamValue (keyName node k) value (some e))}, v, true)
        | .ok rv => mapLoop p kt vt v node ks (setMapIndex entries rk rv) true

/-- Source `parseForMap`: the element-kind restriction is checked first and
any violation records `ErrInvalidMapKeyType{typ: rv.Type()}` — the same
constructor for key and value violations, with the key field left empty. -/
def parseForMap (p : Parser) (t kt vt : Ty) (v : Val) (node : String) (canSet : Bool) :
    Parser × Val × Bool :=
  if ¬ canSet then (p, v, false)
  else if ¬ isAccessMapKeyType (kindOf kt) ∨ ¬ isAccessMapValueType (kindOf vt) then
    ({p with err := some (.invalidMapKeyType "" t)}, v, false)
  else
    let ms := lookup p.container node
    if ms.isEmpty then (p, v, false)
    else mapLoop p kt vt v node ms [] false

/-- Loop of source `parseForSlice` over the discovered indices.  A negative
index would make `reflect.Value.Index` panic in Go; no claim exercises one
and the model skips it. -/
def sliceLoop (rec : RecFn) (te : Ty) (node : String) :
    Parser → List Val → List Int → Bool → Parser × List Val × Bool
  | p, base, [], found => (p, base, found)
  | p, base, i :: is, found =>
    if i < 0 then sliceLoop rec te node p base is found
    else
      let j := i.toNat
      let r := rec p te (base.getD j (zeroVal te)) (genNextParentNode node (natToStr j)) true
      sliceLoop rec te node r.1 (base.set j r.2.1) is (r.2.2 || found)

/-- Source `parseForSlice`: enumerate integer indices, allocate a fresh
slice of length `max(index)+1`, copy the old contents forward, decode each
discovered index, and replace the destination only if something was found. -/
def parseForSlice (rec : RecFn) (p : Parser) (te : Ty) (v : Val) (node : String)
    (canSet : Bool) : Parser × Val × Bool :=
  if ¬ canSet then (p, v, false)
  else
    match lookupForSlice p.container node with
    | .error e => ({p with err := some e}, v, false)
    | .ok ms =>
      if ms.isEmpty then (p, v, false)
      else
        let maxCap : Int := ms.foldl (fun m i => if i + 1 > m then i + 1 else m) 0
        let n := maxCap.toNat
        let old := match v with | .vSlice xs => xs | _ => []
        let base := (List.range n).map
          (fun j => if j < old.length then old.getD j (zeroVal te) else zeroVal te)
        let r := sliceLoop rec te node p base ms false
        if r.2.2 then (r.1, .vSlice r.2.1, true) else (r.1, v, false)

/-- Loop of the `reflect.Array` case of source `parse`: recurse at
`node[i]` for every index `0 ≤ i < cap`. -/
def arrLoop (rec : RecFn) (te : Ty) (node : String) (canSet : Bool) :
    Parser → List Val → Nat → Bool → Parser × List Val × Bool
  | p, [], _, found => (p, [], found)
  | p, w :: ws, i, found =>
    let r := rec p te w (genNextParentNode node (natToStr i)) canSet
    let rest := arrLoop rec te node canSet r.1 ws (i + 1) (r.2.2 || found)
    (rest.1, r.2.1 :: rest.2.1, rest.2.2)

/-- Source `parseForStruct`, one field at a time.  Anonymous struct fields
are flattened into the parent's prefix before the tag is consulted; `-`
skips a field; a `required` field first needs at least one key under its
prefix, and after recursing the check `required && !found` uses the `found`
flag accumulated across all fields processed so far. -/
def parseFields (rec : RecFn) (node : String) (canSet : Bool) :
    Parser → List SField → List Val → Bool → Parser × List Val × Bool
  | p, [], vs, found => (p, vs, found)
  | p, _ :: _, [], found => (p, [], found)
  | p, f :: fs, v :: vs, found =>
    if f.2.2.1 = true ∧ kindOf f.2.2.2 = .structK then
      let r := rec p f.2.2.2 v node canSet
      let rest := parseFields rec node canSet r.1 fs vs (r.2.2 || found)
      (rest.1, r.2.1 :: rest.2.1, rest.2.2)
    else if f.2.1 = "-" then
      let rest := parseFields rec node canSet p fs vs found
      (rest.1, v :: rest.2.1, rest.2.2)
    else
      let name := if tagName f.2.1 = "" then f.1 else tagName f.2.1
      let nodeName := genNextParentNode node name
      let required := tagContains f.2.1 "required"
      if required = true ∧ (lookup p.container nodeName).isEmpty = true then
        (setErrIfNone p (.missingRequiredParam nodeName), v :: vs, found)
      else
        let r := rec p f.2.2.2 v nodeName canSet
        let found1 := r.2.2 || found
        if required = true ∧ found1 = false then
          (setErrIfNone r.1 (.missingRequiredParam nodeName), r.2.1 :: vs, found1)
        else
          let rest := parseFields rec node canSet r.1 fs vs found1
          (rest.1, r.2.1 :: rest.2.1, rest.2.2)

/-- Dispatch of source `parse` after the sticky-error guard. -/
def parseStep (rec : RecFn) (p : Parser) (t : Ty) (v : Val) (node : String) (canSet : Bool) :
    Parser × Val × Bool :=
  if canImmediatelyDecode p t then parseValue p t v node canSet
  else
    match t, v with
    | .ptr te, .vPtr pv => parseForPrt rec p te pv node canSet
    | .iface, .vIface none => (p, .vIface none, false)
    | .iface, .vIface (some held) =>
      let r := rec p held.1 held.2 node false
      (r.1, .vIface (some (held.1, r.2.1)), r.2.2)
    | .mapT kt vt, _ => parseForMap p (.mapT kt vt) kt vt v node canSet
    | .array _ te, .vArr ws =>
      let r := arrLoop rec te node canSet p ws 0 false
      (r.1, .vArr r.2.1, r.2.2)
    | .slice te, _ => parseForSlice rec p te v node canSet
    | .structT fs, .vStruct vs =>
      let r := parseFields rec node canSet p fs vs false
      (r.1, .vStruct r.2.1, r.2.2)
    | _, _ => parseValue p t v node canSet

/-- Source `parser.parse`: returns immediately once the sticky error is
set, otherwise dispatches on the destination's structural category. -/
def parse : Nat → RecFn
  | 0 => fun p _ v _ _ => (p, v, false)
  | fuel + 1 => fun p t v node canSet =>
    if p.err.isSome then (p, v, false)
    else parseStep (parse fuel) p t v node canSet

/-! ### The flattener (`init`, `initValues`)

`SymbolAnd` and `SymbolEqual` are constants declared outside the decode
files; modelled from the spec: raw input splits on `&` and then each pair
on the first `=` only. -/

/-- Scan of the auto-index loop: the smallest `i ≥ i0` (within `fuel`
attempts) such that `base[i]` is not yet a container key. -/
def autoIndexScan (c : Container) (base : String) : Nat → Nat → Option Nat
  | 0, _ => none
  | fuel + 1, i =>
    if containsKey c (base ++ "[" ++ natToStr i ++ "]") then autoIndexScan c base fuel (i + 1)
    else some i

/-- Source `init`, auto-index rule: a key of length `> 2` ending in literal
`[]` is rewritten to `base[i]` for the first free `i`, scanned upward from
0 and capped at 1,000,000 attempts; if every attempt is taken the key is
left unchanged. -/
def autoIndex (c : Container) (k : String) : String :=
  if sLen k > 2 ∧ sDrop k (sLen k - 2) = "[]" then
    match autoIndexScan c (sTake k (sLen k - 2)) 1000000 0 with
    | some i => sTake k (sLen k - 2) ++ "[" ++ natToStr i ++ "]"
    | none => k
  else k

/-- Loop body of source `init` for one `k=v` pair.  Go assigns the
unescape result back to `ns[0]`/`ns[1]` before checking the error, so the
key recorded in `ErrInvalidParamKey` is the string the failed unescape
returned; and the value-unescape failure records `ns[0]` — the already
unescaped key — in both the `key` and the `val` fields. -/
def initPair (p : Parser) (pair : String) : Parser × Option Err :=
  match splitFirstEq pair.data with
  | (_, none) => (p, none)
  | (k0, some v0) =>
    let kr := p.queryEncoder ⟨k0⟩
    match kr.2 with
    | some e => (p, some (.invalidParamKey kr.1 (some e)))
    | none =>
      let vr := p.queryEncoder ⟨v0⟩
      match vr.2 with
      | some e => (p, some (.invalidParamValue kr.1 kr.1 (some e)))
      | none =>
        ({p with container := cinsert p.container (autoIndex p.container kr.1) vr.1}, none)

def initLoop (p : Parser) : List String → Parser × Option Err
  | [] => (p, none)
  | s :: rest =>
    match initPair p s with
    | (p1, some e) => (p1, some e)
    | (p1, none) => initLoop p1 rest

/-- Source `parser.init`: raw bytes to container, returning the first
flattening error. -/
def init (p : Parser) (data : String) : Parser × Option Err :=
  initLoop p ((splitOnChar '&' data.data).map (fun cs => ⟨cs⟩))

/-- One entry of source `initValues`: a `name[]` key maps each value to
`name[i]` by its position; any other key contributes `values[0]` only.  Go
indexes `values[0]` unconditionally (a `url.Values` entry is never empty);
the model leaves the container unchanged on an empty list. -/
def initValuesEntry (c : Container) (key : String) (values : List String) : Container :=
  if sLen key > 2 ∧ sDrop key (sLen key - 2) = "[]" then
    (values.enum).foldl
      (fun c1 iv => cinsert c1 (sTake key (sLen key - 2) ++ "[" ++ natToStr iv.1 ++ "]") iv.2) c
  else
    match values with
    | [] => c
    | v :: _ => cinsert c key v

/-- Source `parser.initValues` over a pre-split key to list-of-values
mapping (iteration order of the Go map is unspecified; the model folds in
list order). -/
def initValues (p : Parser) (urlValues : List (String × List String)) : Parser :=
  {p with container := urlValues.foldl (fun c kv => initValuesEntry c kv.1 kv.2) p.container}

/-! ### Entry points (`Unmarshal`, `UnmarshalValues`)

The destination argument of the Go entry points is an `interface{}`; after
`reflect.ValueOf` it is either not a pointer, a nil pointer, or a non-nil
pointer to a value — `Dest` enumerates exactly these shapes. -/

inductive Dest where
  | nonPtr (t : Ty) (v : Val)
  | nilPtr (t : Ty)
  | ptrTo (t : Ty) (v : Val)

/-- Source `parser.Unmarshal`: reset the per-call state, reject a
non-pointer or nil-pointer destination before reading any input, flatten,
parse from the root, release the container and return the sticky error.
The root `reflect.Value` itself is not settable, hence `canSet = false`
for the root call (the pointee is settable through the pointer). -/
def Unmarshal (fuel : Nat) (p : Parser) (data : String) (d : Dest) :
    Parser × Dest × Option Err :=
  let p0 := {p with container := [], err := none}
  match d with
  | .nonPtr t v => (p0, .nonPtr t v, some .invalidUnmarshal)
  | .nilPtr t => (p0, .nilPtr t, some .invalidUnmarshal)
  | .ptrTo t v =>
    match init p0 data with
    | (p1, some e) => (p1, .ptrTo t v, some e)
    | (p1, none) =>
      let r := parse fuel p1 (.ptr t) (.vPtr (some v)) "" false
      let w := match r.2.1 with | .vPtr (some w) => w | _ => v
      ({r.1 with container := []}, .ptrTo t w, r.1.err)

/-- Source `parser.UnmarshalValues`: the pre-split entry point; identical
except that the container is built by `initValues`, which cannot fail. -/
def UnmarshalValues (fuel : Nat) (p : Parser) (urlValues : List (String × List String))
    (d : Dest) : Parser × Dest × Option Err :=
  let p0 := {p with container := [], err := none}
  match d with
  | .nonPtr t v => (p0, .nonPtr t v, some .invalidUnmarshal)
  | .nilPtr t => (p0, .nilPtr t, some .invalidUnmarshal)
  | .ptrTo t v =>
    let p1 := initValues p0 urlValues
    let r := parse fuel p1 (.ptr t) (.vPtr (some v)) "" false
    let w := match r.2.1 with | .vPtr (some w) => w | _ => v
    ({r.1 with container := []}, .ptrTo t w, r.1.err)

/-! ### The full decoder resolution chain (`parser.decode`, `valuedecoder.go`)

The claims about strategy precedence involve destination types that are
convertible from `time.Time` or implement the `Decodable` protocol; such
types (e.g. `time.Time`, named time types, named composites with an
`UnmarshalQueryParam` method) carry behaviour of their own, so here a
destination type `DTy` is a record of exactly the capabilities the chain
inspects, with `proto` the behaviour of the type's `UnmarshalQueryParam`
method.  Error payloads name the type by its `name` string. -/

namespace Chain

abbrev CErr := GErr String

/-- A destination type as seen by the resolution chain. -/
structure DTy where
  name : String
  kind : GoKind
  /-- `TimeDecoder.DecodesType`: `reflect.TypeOf(time.Time{}).ConvertibleTo(t)`. -/
  convFromTime : Bool
  /-- The type itself implements `Decodable`. -/
  selfImpl : Bool
  /-- A pointer to the type implements `Decodable`. -/
  ptrImpl : Bool
  /-- For pointer kinds: whether the pointee implements `Decodable`. -/
  elemSelfImpl : Bool
  /-- Behaviour of the type's `UnmarshalQueryParam`: the value the receiver
  holds afterwards, or the method's error. -/
  proto : String → Except CErr Val

structure CDecoder where
  decodesType : DTy → Bool
  decode : String → Except CErr Val

/-- Source `TimeDecoder`: claims every type convertible from `time.Time`;
its `Decode` is `time.Parse(time.RFC3339, value)`, an external library
routine supplied here as `tsParse`. -/
def timeDecoder (tsParse : String → Except CErr Val) : CDecoder :=
  { decodesType := fun t => t.convFromTime, decode := tsParse }

/-- Source `isDecodable`. -/
def isDecodable (t : DTy) : Bool :=
  if t.selfImpl then
    if t.kind = .ptrK then ¬ t.elemSelfImpl
    else if t.kind = .mapK then true
    else false
  else t.ptrImpl

/-- Source `maybeDecodeableDecode`: `none` when the protocol does not apply;
protocol failures are wrapped as `ErrTranslated`.  For a pointer type the
receiver is a fresh pointer and the pointer is returned; for a map a fresh
map; otherwise only the pointer form applies and the pointee is read back. -/
def maybeDecodeableDecode (t : DTy) (value : String) : Option (Except CErr Val) :=
  if t.selfImpl then
    if t.kind = .ptrK then
      match t.proto value with
      | .error e => some (.error (.translated e))
      | .ok w => some (.ok (.vPtr (some w)))
    else if t.kind = .mapK then
      match t.proto value with
      | .error e => some (.error (.translated e))
      | .ok w => some (.ok w)
    else none
  else if t.ptrImpl then
    match t.proto value with
    | .error e => some (.error (.translated e))
    | .ok w => some (.ok w)
  else none

/-- The parser configuration the chain reads: the registered custom
decoders in registration order, the per-kind overrides, and the external
timestamp parser closed over by the builtin tier. -/
structure CParser where
  customDecoders : List CDecoder
  decodeFuncMap : List (GoKind × Option (String → Except CErr Val)) := []
  tsParse : String → Except CErr Val

def cGetDecodeFunc (p : CParser) (k : GoKind) : Option (String → Except CErr Val) :=
  match (p.decodeFuncMap.find? (fun e => e.1 = k)).map (fun e => e.2) with
  | some f => f
  | none => getDecodeFuncDefault String k

/-- Source `parser.decode` in full: registered custom decoders (first
capability match in registration order), then the builtin decoders
(`builtinDecoders = [TimeDecoder{}]`), then the `Decodable` protocol, then
the per-kind table; no tier matching yields `ErrUnhandledType`.  The guard
`typ != reflect.TypeOf(anyType)` compares against the runtime type of a
`reflect.Type` value and never excludes a destination type. -/
def cdecode (p : CParser) (t : DTy) (value : String) : Except CErr Val :=
  match p.customDecoders.find? (fun d => d.decodesType t) with
  | some d => d.decode value
  | none =>
    match [timeDecoder p.tsParse].find? (fun d => d.decodesType t) with
    | some d => d.decode value
    | none =>
      match maybeDecodeableDecode t value with
      | some r => r
      | none =>
        match cGetDecodeFunc p t.kind with
        | none => .error (.unhandledType t.name)
        | some f => f value

end Chain

/-! ### Concrete fixtures used by the claim theorems -/

/-- An escaping strategy that is the identity and never fails: the default
strategy restricted to inputs containing no escape sequences, which is what
every concrete input below is. -/
def idEscape : String → String × Option Err := fun s => (s, none)

/-- A freshly constructed parser (`NewParser()`) with the default escaping
strategy. -/
def baseParser : Parser := { queryEncoder := idEscape }

/-- An escaping strategy that fails on the raw value `"v"`, returning the
empty string and an error, and is the identity elsewhere. -/
def failOnV : String → String × Option Err :=
  fun s => if s = "v" then ("", some (.externalErr "bad escape")) else (s, none)

def failParser : Parser := { queryEncoder := failOnV }

/-- `struct { Tags []int `query:"tags"` }`. -/
def tagsT : Ty := .structT [("Tags", "tags", false, .slice .int)]

/-- `struct { A int `query:"a"`; B string `query:"b,required"` }` — the
required field comes after a field that matches. -/
def abT : Ty := .structT [("A", "a", false, .int), ("B", "b,required", false, .str)]

/-- `map[string]S` for a struct type `S`: the key kind is in the
primitive-decodable set, the value kind is not. -/
def mapBadValT : Ty := .mapT .str (.structT [])

/-- A struct whose only field is an anonymous (embedded) struct tagged with
the skip marker `-`. -/
def anonSkipT : Ty := .structT [("Inner", "-", true, .structT [("X", "", false, .int)])]

/-- A recursive-step stub used to instantiate helper-level theorems at a
concrete input: it finds nothing and changes nothing. -/
def recNoop : RecFn := fun p _ v _ _ => (p, v, false)

/-! ### Claim theorems -/

/-- **C3.** Decoding `1=20&3=30` into a 5-length integer array yields
`[0,20,0,30,0]` with no error — absent indices keep the zero value — and
decoding the same input into an integer slice yields a slice of length
exactly `max(matched index)+1 = 4`, namely `[0,20,0,30]`. -/
theorem c3_array_slice_gaps :
    (Unmarshal 6 baseParser "1=20&3=30" (.ptrTo (.array 5 .int) (zeroVal (.array 5 .int)))).2
      = (.ptrTo (.array 5 .int) (.vArr [.vInt 0, .vInt 20, .vInt 0, .vInt 30, .vInt 0]), none)
  ∧ (Unmarshal 6 baseParser "1=20&3=30" (.ptrTo (.slice .int) (.vSlice []))).2
      = (.ptrTo (.slice .int) (.vSlice [.vInt 0, .vInt 20, .vInt 0, .vInt 30]), none) :=
  ⟨rfl, rfl⟩

/-- **C6.** Once the sticky error is set, a decode step is a no-op: the
state (in particular the recorded error) is unchanged, the destination
value is unchanged, and nothing is reported found — so the first error
recorded is the single error the call returns and no later error replaces
it. -/
theorem c6_sticky_error (fuel : Nat) (p : Parser) (t : Ty) (v : Val) (node : String)
    (canSet : Bool) (e : Err) (h : p.err = some e) :
    parse fuel p t v node canSet = (p, v, false) := by
  cases fuel with
  | zero => rfl
  | succ n => simp [parse, h]

theorem c6_sticky_error_witness :
    parse 3 {baseParser with err := some .invalidUnmarshal} .int (.vInt 7) "a" true
      = ({baseParser with err := some .invalidUnmarshal}, .vInt 7, false) :=
  c6_sticky_error 3 _ .int (.vInt 7) "a" true .invalidUnmarshal rfl

/-- **C8.** Both decode entry points reject a non-pointer or nil-pointer
destination with `InvalidUnmarshal` immediately: the result is the same for
every input (no key is read) and the destination is returned unchanged. -/
theorem c8_invalid_unmarshal :
    (∀ (fuel : Nat) (p : Parser) (data : String) (t : Ty) (v : Val),
      Unmarshal fuel p data (.nonPtr t v)
        = ({p with container := [], err := none}, .nonPtr t v, some .invalidUnmarshal))
  ∧ (∀ (fuel : Nat) (p : Parser) (data : String) (t : Ty),
      Unmarshal fuel p data (.nilPtr t)
        = ({p with container := [], err := none}, .nilPtr t, some .invalidUnmarshal))
  ∧ (∀ (fuel : Nat) (p : Parser) (uv : List (String × List String)) (t : Ty) (v : Val),
      UnmarshalValues fuel p uv (.nonPtr t v)
        = ({p with container := [], err := none}, .nonPtr t v, some .invalidUnmarshal))
  ∧ (∀ (fuel : Nat) (p : Parser) (uv : List (String × List String)) (t : Ty),
      UnmarshalValues fuel p uv (.nilPtr t)
        = ({p with container := [], err := none}, .nilPtr t, some .invalidUnmarshal)) :=
  ⟨fun _ _ _ _ _ => rfl, fun _ _ _ _ => rfl, fun _ _ _ _ _ => rfl, fun _ _ _ _ => rfl⟩

/-- **C10.** On the pre-split input path, a key that is not rewritten by
the `[]` rule and maps to several values contributes only its first value:
the container binding is exactly `key ↦ v`, and the result does not depend
on the remaining values at all. -/
theorem c10_first_value_only (c : Container) (key v : String) (vs : List String)
    (h : ¬ (sLen key > 2 ∧ sDrop key (sLen key - 2) = "[]")) :
    initValuesEntry c key (v :: vs) = cinsert c key v
      ∧ initValuesEntry c key (v :: vs) = initValuesEntry c key [v] := by
  refine ⟨?_, ?_⟩ <;> simp [initValuesEntry, h]

theorem c10_first_value_only_witness :
    initValuesEntry [] "k" ["x", "y", "z"] = cinsert [] "k" "x"
      ∧ initValuesEntry [] "k" ["x", "y", "z"] = initValuesEntry [] "k" ["x"] :=
  c10_first_value_only [] "k" "x" ["y", "z"] (by decide)

/-- The auto-index scan returns the first free index at or above its start,
provided it lies within the remaining attempts. -/
theorem autoIndexScan_finds (c : Container) (base : String) :
    ∀ (fuel i0 i : Nat), i0 ≤ i → i - i0 < fuel →
      (∀ j, i0 ≤ j → j < i → containsKey c (base ++ "[" ++ natToStr j ++ "]") = true) →
      containsKey c (base ++ "[" ++ natToStr i ++ "]") = false →
      autoIndexScan c base fuel i0 = some i := by
  intro fuel
  induction fuel with
  | zero => intro i0 i _ hlt; omega
  | succ n ih =>
    intro i0 i hle hlt htaken hfree
    rcases Nat.eq_or_lt_of_le hle with heq | hlt2
    · subst heq
      simp [autoIndexScan, hfree]
    · have h0 : containsKey c (base ++ "[" ++ natToStr i0 ++ "]") = true :=
        htaken i0 le_rfl hlt2
      simp only [autoIndexScan, h0, if_pos]
      exact ih (i0 + 1) i hlt2 (by omega) (fun j hj1 hj2 => htaken j (by omega) hj2) hfree

/-- **C4.** On the raw-byte path a key `base[]` (with `base` non-empty) is
rewritten to `base[i]` for the smallest `i` whose key `base[i]` is not yet
in the container, scanned upward from 0 within the 1,000,000-attempt cap;
consequently `tags[]=1&tags[]=2` decoded into a slice field yields `[1,2]`
in encounter order. -/
theorem c4_auto_index :
    (∀ (c : Container) (base : String) (i : Nat),
      base ≠ "" → i < 1000000 →
      (∀ j, j < i → containsKey c (base ++ "[" ++ natToStr j ++ "]") = true) →
      containsKey c (base ++ "[" ++ natToStr i ++ "]") = false →
      autoIndex c (base ++ "[]") = base ++ "[" ++ natToStr i ++ "]")
  ∧ (Unmarshal 6 baseParser "tags[]=1&tags[]=2" (.ptrTo tagsT (zeroVal tagsT))).2
      = (.ptrTo tagsT (.vStruct [.vSlice [.vInt 1, .vInt 2]]), none) := by
  constructor
  · intro c base i hbase hcap htaken hfree
    have hdata : (base ++ "[]").data = base.data ++ ['[', ']'] := by
      simp [String.data_append]
    have hlen : sLen (base ++ "[]") = base.data.length + 2 := by
      simp [sLen, hdata]
    have hbl : 0 < base.data.length := by
      rcases base with ⟨cs⟩
      cases cs with
      | nil => exact absurd rfl hbase
      | cons a as => simp
    have hcond : sLen (base ++ "[]") > 2 ∧
        sDrop (base ++ "[]") (sLen (base ++ "[]") - 2) = "[]" := by
      refine ⟨by omega, ?_⟩
      have : sLen (base ++ "[]") - 2 = base.data.length := by omega
      rw [this]
      show (⟨((base ++ "[]").data).drop base.data.length⟩ : String) = "[]"
      rw [hdata, List.drop_left]
    have htake : sTake (base ++ "[]") (sLen (base ++ "[]") - 2) = base := by
      have : sLen (base ++ "[]") - 2 = base.data.length := by omega
      rw [this]
      show (⟨((base ++ "[]").data).take base.data.length⟩ : String) = base
      rw [hdata, List.take_left]
    rw [autoIndex, if_pos hcond, htake,
      autoIndexScan_finds c base 1000000 0 i (Nat.zero_le i) (by omega)
        (fun j _ hj => htaken j hj) hfree]
  · rfl

theorem c4_auto_index_witness :
    autoIndex [("tags" ++ "[" ++ natToStr 0 ++ "]", "1")] ("tags" ++ "[]")
      = "tags" ++ "[" ++ natToStr 1 ++ "]" :=
  c4_auto_index.1 [("tags" ++ "[" ++ natToStr 0 ++ "]", "1")] "tags" 1 (by decide) (by decide)
    (fun j hj => by
      have : j = 0 := by omega
      subst this
      decide)
    (by decide)

/-- **C5.** The resolution chain consults the registered custom decoders
first, in registration order: whenever some registered decoder claims the
destination type, the first claiming one determines the result outright —
regardless of the type being convertible from the timestamp representation
(`convFromTime`) or implementing the `Decodable` protocol. -/
theorem c5_custom_decoder_precedence (p : Chain.CParser) (t : Chain.DTy) (value : String)
    (pre post : List Chain.CDecoder) (d : Chain.CDecoder)
    (hreg : p.customDecoders = pre ++ d :: post)
    (hpre : ∀ d' ∈ pre, d'.decodesType t = false)
    (hd : d.decodesType t = true) :
    Chain.cdecode p t value = d.decode value := by
  have hfind : ∀ pre2 : List Chain.CDecoder, (∀ d' ∈ pre2, d'.decodesType t = false) →
      (pre2 ++ d :: post).find? (fun d' => d'.decodesType t) = some d := by
    intro pre2
    induction pre2 with
    | nil => intro _; simp [List.find?, hd]
    | cons a as ih =>
      intro hp
      have ha := hp a (by simp)
      simpa [List.find?, ha] using ih (fun d' hm => hp d' (by simp [hm]))
  rw [Chain.cdecode, hreg, hfind pre hpre]

/-- A destination type that is both convertible from `time.Time` and
implements `Decodable` (as a map type, with a working protocol). -/
def bothCapableT : Chain.DTy :=
  { name := "testEncodedMap"
    kind := .mapK
    convFromTime := true
    selfImpl := true
    ptrImpl := true
    elemSelfImpl := false
    proto := fun _ => .ok (.vMap []) }

/-- A registered custom decoder claiming every timestamp-convertible type
(like the replacement time decoder in the repository's tests). -/
def customDec : Chain.CDecoder :=
  { decodesType := fun t => t.convFromTime, decode := fun s => .ok (.vStr s) }

def chainParser : Chain.CParser :=
  { customDecoders := [customDec], tsParse := fun _ => .error (.externalErr "time.Parse") }

theorem c5_custom_decoder_precedence_witness :
    Chain.cdecode chainParser bothCapableT "x" = Except.ok (.vStr "x") :=
  c5_custom_decoder_precedence chainParser bothCapableT "x" [] [] customDec rfl
    (fun d' hm => absurd hm (List.not_mem_nil d')) rfl

/-- **C7, counterexample.** Flattening `k=v` with an escaper that fails on
the value yields `InvalidParamValue` whose `val` field holds the key `"k"`,
not the offending value `"v"` — refuting the claim that the error carries
the offending value. -/
theorem c7_counterexample :
    (init failParser "k=v").2
      = some (.invalidParamValue "k" "k" (some (.externalErr "bad escape")))
  ∧ ("k" : String) ≠ "v" :=
  ⟨rfl, by decide⟩

/-- **C7, amended.** When unescaping a value fails, the error is
`InvalidParamValue` carrying the key path and wrapping the cause, but its
`val` field holds the (already unescaped) key rather than the offending
value; when unescaping a key fails, the error is `InvalidParamKey` wrapping
the cause, whose key field holds the string the failed unescape returned. -/
theorem c7_unescape_failure :
    (∀ (p : Parser) (s : String) (k0 v0 : List Char) (k1 v1 : String) (e : Err),
      splitFirstEq s.data = (k0, some v0) →
      p.queryEncoder ⟨k0⟩ = (k1, none) →
      p.queryEncoder ⟨v0⟩ = (v1, some e) →
      initPair p s = (p, some (.invalidParamValue k1 k1 (some e))))
  ∧ (∀ (p : Parser) (s : String) (k0 v0 : List Char) (k1 : String) (e : Err),
      splitFirstEq s.data = (k0, some v0) →
      p.queryEncoder ⟨k0⟩ = (k1, some e) →
      initPair p s = (p, some (.invalidParamKey k1 (some e)))) := by
  constructor
  · intro p s k0 v0 k1 v1 e h1 h2 h3
    simp [initPair, h1, h2, h3]
  · intro p s k0 v0 k1 e h1 h2
    simp [initPair, h1, h2]

theorem c7_unescape_failure_witness :
    initPair failParser "k=v"
      = (failParser, some (.invalidParamValue "k" "k" (some (.externalErr "bad escape")))) :=
  c7_unescape_failure.1 failParser "k=v" ['k'] ['v'] "k" "" (.externalErr "bad escape")
    rfl rfl rfl

/-- **C2, counterexample.** Decoding into `map[string]S` (string keys —
a supported kind — but struct values, an unsupported kind) fails with
`ErrInvalidMapKeyType`, not `ErrInvalidMapValueType`, and the error's key
field is empty rather than naming the field's path — refuting both parts
of the claim for the value-kind case. -/
theorem c2_counterexample :
    (Unmarshal 6 baseParser "a[k]=1" (.ptrTo mapBadValT (.vMap []))).2.2
      = some (.invalidMapKeyType "" mapBadValT)
  ∧ ∀ (k : String) (t : Ty),
      (GErr.invalidMapKeyType "" mapBadValT : Err) ≠ .invalidMapValueType k t :=
  ⟨rfl, fun _ _ h => nomatch h⟩

/-- **C2, amended.** For every map destination whose key kind or value
kind falls outside the primitive-decodable set, the decode fails with
`ErrInvalidMapKeyType` (the single constructor used for both violations)
carrying the map's own type and an empty key field, before any entry of
the map is examined (the container plays no part). -/
theorem c2_map_kind_restriction (p : Parser) (kt vt : Ty) (v : Val) (node : String)
    (h : ¬ isAccessMapKeyType (kindOf kt) = true ∨ ¬ isAccessMapValueType (kindOf vt) = true) :
    parseForMap p (.mapT kt vt) kt vt v node true
      = ({p with err := some (.invalidMapKeyType "" (.mapT kt vt))}, v, false) := by
  unfold parseForMap
  rw [if_neg (by simp), if_pos h]

theorem c2_map_kind_restriction_witness :
    parseForMap baseParser (.mapT .str (.structT [])) .str (.structT []) (.vMap []) "m" true
      = ({baseParser with err := some (.invalidMapKeyType "" (.mapT .str (.structT [])))},
         .vMap [], false) :=
  c2_map_kind_restriction baseParser .str (.structT []) (.vMap []) "m" (Or.inr (by decide))

/-- **C1, counterexample.** In `struct { A int `query:"a"`; B string
`query:"b,required"` }` decoded from `a=1&b[x]=y`, the required field `B`
has keys under its prefix (`b[x]`), its own recursion reports
`found = false` (no exact key `b`), yet no error is raised, because the
`found` flag accumulated from the earlier matching field `A` masks the
post-recursion check — refuting the claim's "regardless of what other
fields of the struct matched". -/
theorem c1_counterexample :
    (Unmarshal 6 baseParser "a=1&b[x]=y" (.ptrTo abT (zeroVal abT))).2.2 = none
  ∧ (none : Option Err) ≠ some (.missingRequiredParam "b") :=
  ⟨rfl, fun h => Option.noConfusion h⟩

/-- **C1, amended.** For a `required` field (non-anonymous-struct, not
skip-tagged) with resolved prefix `nodeName`: (a) if no container key
exists under `nodeName`, the call fails at once with
`MissingRequiredParam nodeName` and the remaining fields are left
untouched; (b) if keys exist but the recursion reports `found = false`
**and** no earlier field of the struct had matched (the accumulated flag is
`false`), the call fails the same way; (c) if the recursion reports
`found = false` but an earlier field had matched, no error is raised and
processing simply continues with the remaining fields. -/
theorem c1_required_field (rec : RecFn) (node : String) (cs : Bool) (p : Parser)
    (f : SField) (fs : List SField) (v : Val) (vs : List Val) (found : Bool)
    (nodeName : String)
    (hanon : ¬ (f.2.2.1 = true ∧ kindOf f.2.2.2 = .structK))
    (htag : ¬ f.2.1 = "-")
    (hreq : tagContains f.2.1 "required" = true)
    (hname : nodeName = genNextParentNode node (if tagName f.2.1 = "" then f.1 else tagName f.2.1)) :
    ((lookup p.container nodeName).isEmpty = true → p.err = none →
      parseFields rec node cs p (f :: fs) (v :: vs) found
        = ({p with err := some (.missingRequiredParam nodeName)}, v :: vs, found))
  ∧ (∀ (p1 : Parser) (v1 : Val),
      (lookup p.container nodeName).isEmpty = false →
      rec p f.2.2.2 v nodeName cs = (p1, v1, false) →
      found = false → p1.err = none →
      parseFields rec node cs p (f :: fs) (v :: vs) found
        = ({p1 with err := some (.missingRequiredParam nodeName)}, v1 :: vs, false))
  ∧ (∀ (p1 : Parser) (v1 : Val),
      (lookup p.container nodeName).isEmpty = false →
      rec p f.2.2.2 v nodeName cs = (p1, v1, false) →
      found = true →
      parseFields rec node cs p (f :: fs) (v :: vs) found
        = ((parseFields rec node cs p1 fs vs true).1,
           v1 :: (parseFields rec node cs p1 fs vs true).2.1,
           (parseFields rec node cs p1 fs vs true).2.2)) := by
  subst hname
  refine ⟨?_, ?_, ?_⟩
  · intro hemp herr
    simp only [parseFields, if_neg hanon, if_neg htag, hreq, true_and, hemp, if_pos,
      setErrIfNone, herr]
  · intro p1 v1 hemp hrec hfound herr
    subst hfound
    simp only [parseFields, if_neg hanon, if_neg htag, hreq, true_and, hemp,
      Bool.false_eq_true, if_false, hrec, Bool.or_false, Bool.not_false, and_true,
      if_true, setErrIfNone, herr]
  · intro p1 v1 hemp hrec hfound
    subst hfound
    simp only [parseFields, if_neg hanon, if_neg htag, hreq, true_and, hemp,
      Bool.false_eq_true, if_false, hrec, Bool.or_true, Bool.true_eq_false, and_false,
      setErrIfNone]

theorem c1_required_field_witness :
    parseFields recNoop "" true baseParser [("B", "b,required", false, .str)]
        [Val.vStr ""] false
      = ({baseParser with err := some (.missingRequiredParam "b")}, [Val.vStr ""], false) :=
  (c1_required_field recNoop "" true baseParser ("B", "b,required", false, .str) []
    (Val.vStr "") [] false "b" (by simp) (by decide) (by decide) (by decide)).1 rfl rfl

/-- **C9, counterexample.** A struct whose anonymous (embedded) struct
field carries the skip tag `-` is still decoded: the anonymous-field
branch runs before the tag is consulted, so input `X=5` writes 5 through
the skip-tagged field — refuting "decoding never writes to that field". -/
theorem c9_counterexample :
    (Unmarshal 6 baseParser "X=5" (.ptrTo anonSkipT (zeroVal anonSkipT))).2.1
      = .ptrTo anonSkipT (.vStruct [.vStruct [.vInt 5]])
  ∧ Val.vStruct [.vStruct [.vInt 5]] ≠ Val.vStruct [.vStruct [.vInt 0]] := by
  refine ⟨rfl, fun h => ?_⟩
  injection h with h1
  injection h1 with h2 _
  injection h2 with h3
  injection h3 with h4 _
  injection h4 with h5
  exact absurd h5 (by decide)

/-- **C9, amended.** Every field whose tag is the skip marker `-` and that
is not an anonymous field of struct kind is never written: whatever the
input, the recursion step, and the surrounding state, the value at that
field's position after struct decoding equals the value before.
(Anonymous struct fields are flattened before the tag check, so the skip
marker does not protect them — see the counterexample.) -/
theorem c9_skip_tag_preserved (rec : RecFn) (node : String) (cs : Bool) :
    ∀ (fs : List SField) (p : Parser) (vs : List Val) (found : Bool) (i : Nat) (f : SField),
      fs[i]? = some f →
      f.2.1 = "-" →
      ¬ (f.2.2.1 = true ∧ kindOf f.2.2.2 = .structK) →
      ((parseFields rec node cs p fs vs found).2.1)[i]? = vs[i]? := by
  intro fs
  induction fs with
  | nil => intro p vs found i f hf; simp at hf
  | cons f0 fs0 ih =>
    intro p vs found i f hf htag hanon
    cases vs with
    | nil => simp [parseFields]
    | cons v0 vs0 =>
      cases i with
      | zero =>
        simp only [List.getElem?_cons_zero, Option.some.injEq] at hf
        subst hf
        simp only [parseFields, if_neg hanon, htag, if_pos, List.getElem?_cons_zero]
      | succ j =>
        simp only [List.getElem?_cons_succ] at hf ⊢
        by_cases h1 : f0.2.2.1 = true ∧ kindOf f0.2.2.2 = .structK
        · simp only [parseFields, if_pos h1, List.getElem?_cons_succ]
          exact ih _ _ _ j f hf htag hanon
        · by_cases h2 : f0.2.1 = "-"
          · simp only [parseFields, if_neg h1, h2, if_pos, List.getElem?_cons_succ]
            exact ih _ _ _ j f hf htag hanon
          · simp only [parseFields, if_neg h1, if_neg h2]
            split <;> split <;>
              first
                | (simp; done)
                | (split
                   · simp
                   · simp only [List.getElem?_cons_succ]
                     exact ih _ _ _ j f hf htag hanon)

theorem c9_skip_tag_preserved_witness :
    ((parseFields recNoop "" true baseParser [("H", "-", false, .int)]
        [Val.vInt 7] false).2.1)[0]? = ([Val.vInt 7] : List Val)[0]? :=
  c9_skip_tag_preserved recNoop "" true [("H", "-", false, .int)] baseParser
    [Val.vInt 7] false 0 ("H", "-", false, .int) rfl rfl (by simp)

end Urlquery
